import Mathlib

/-!
Shallow embedding of the quiz application in src/Quiz.py.

The repository is a single Streamlit script.  Its two cores are:

* the generation pipeline generate_quiz (Quiz.py lines 12-79): prompt the
  model, extract a JSON payload from the reply with the regex
  r"```json\s*(\{.*\})\s*```" (re.DOTALL) or a fallback strip of fence
  markers, parse it, and return the "quiz" field (default []), with None on
  every failure;

* the session state machine kept in st.session_state (quiz,
  current_question_index, score, user_answers) driven by the module-level
  handlers: the Generate button (lines 88-99), the radio recording
  (lines 114-124), the Previous/Next buttons (lines 127-142), the Completed
  results branch (lines 143-176) and the Start New Quiz button
  (lines 178-181).

Strings from the Python side are modelled as List Char so that the regex
semantics can be stated by recursion.  Python dicts are modelled as
insertion-ordered association lists with first-key-wins lookup and
in-place update, matching dict semantics for the operations the script
uses.  Python int is modelled as Int.  Python truthiness of strings,
lists and None is modelled explicitly where the script relies on it
(if quiz:, if user_ans:, if selected_key ... else 0, if not json_string:).
-/

namespace MCQ

/-- Characters matched by the regex class \s and stripped by str.strip,
restricted to the ASCII range the payloads use. -/
def isWS (c : Char) : Bool :=
  c = ' ' || c = '\t' || c = '\n' || c = '\r' || c = '\x0b' || c = '\x0c'

/-- Backtick, written by code so the source file itself stays fence-free. -/
def btChar : Char := '\x60'

/-- Opening brace character of the regex literal \{. -/
def obr : Char := '\x7b'

/-- Closing brace character of the regex literal \}. -/
def cbr : Char := '\x7d'

/-- The literal ```json opening the fence the regex looks for. -/
def fenceJson : List Char := [btChar, btChar, btChar, 'j', 's', 'o', 'n']

/-- The literal ``` closing a fence. -/
def fence : List Char := [btChar, btChar, btChar]

/-- Test whether pat is a prefix of l, by character equality. -/
def startsWith : List Char → List Char → Bool
  | [], _ => true
  | _ :: _, [] => false
  | p :: ps, c :: cs => p = c && startsWith ps cs

/-- After the captured \}, the regex requires \s* and then the literal ```.
closeOK l holds when the text l begins with whitespace followed by ```. -/
def closeOK (l : List Char) : Bool :=
  startsWith fence (l.dropWhile isWS)

/-- Position of the last character q in l with l[q] = the closing brace and
closeOK on the rest: the end of the greedy group (\{.*\}) of the regex. -/
def lastClose : List Char → Option Nat
  | [] => none
  | c :: t =>
    match lastClose t with
    | some q => some (q + 1)
    | none => if c = cbr && closeOK t then some 0 else none

/-- A full match of re.search(r"```json\s*(\{.*\})\s*```", raw, re.DOTALL)
anchored at the start of l, returning the captured group: the literal
```json, then greedy \s* (which must end at an opening brace since \s
matches no brace), then the group from that brace to the last closing brace
of l that is followed by whitespace and a closing ```. -/
def matchAt (l : List Char) : Option (List Char) :=
  if startsWith fenceJson l then
    match (l.drop fenceJson.length).dropWhile isWS with
    | c :: t =>
      if c = obr then (lastClose t).map (fun q => c :: t.take (q + 1)) else none
    | [] => none
  else none

/-- re.search scans left to right and returns the first position at which
the whole pattern matches; searchFence returns that match's group. -/
def searchFence : List Char → Option (List Char)
  | [] => none
  | l@(_ :: t) =>
    match matchAt l with
    | some g => some g
    | none => searchFence t

/-- Model of str.replace(pat, ""): remove every non-overlapping occurrence
of pat, scanning left to right. -/
def replaceAll (pat : List Char) : List Char → List Char
  | [] => []
  | c :: t =>
    if h : pat ≠ [] ∧ startsWith pat (c :: t) = true then
      replaceAll pat (List.drop pat.length (c :: t))
    else
      c :: replaceAll pat t
termination_by l => l.length
decreasing_by
  · simp only [List.length_drop, List.length_cons]
    have hne : pat.length ≠ 0 := fun hz => h.1 (List.eq_nil_of_length_eq_zero hz)
    omega
  · simp

/-- Model of str.strip(): drop whitespace from both ends. -/
def stripWS (l : List Char) : List Char :=
  ((l.dropWhile isWS).reverse.dropWhile isWS).reverse

/-- Extraction step of generate_quiz (Quiz.py lines 55-62): the regex group
when the search succeeds, otherwise the fallback
raw.replace("```json", "").replace("```", "").strip(). -/
def extractJson (raw : List Char) : List Char :=
  match searchFence raw with
  | some g => g
  | none => stripWS (replaceAll fence (replaceAll fenceJson raw))

/-- A parsed quiz question (the Question shape of the JSON schema).  The
options mapping is kept as an insertion-ordered association list, the order
Python dicts preserve and list(options.keys()) exposes. -/
structure Question where
  question : String
  options : List (String × String)
  answer : String
  explanation : String
deriving DecidableEq

/-- Lookup in an insertion-ordered association list: the value at the first
matching key, as dict.get returns it (None when absent). -/
def alistGet {α β : Type} [DecidableEq α] : List (α × β) → α → Option β
  | [], _ => none
  | (k, v) :: t, i => if k = i then some v else alistGet t i

/-- Update of an insertion-ordered association list: d[k] = v replaces the
value at an existing key in place and otherwise appends, as dicts do. -/
def alistSet {α β : Type} [DecidableEq α] : List (α × β) → α → β → List (α × β)
  | [], k, v => [(k, v)]
  | (k', v') :: t, k, v =>
    if k' = k then (k, v) :: t else (k', v') :: alistSet t k v

/-- Model of generate_quiz (Quiz.py lines 12-79) after the external call.
response is the model invocation's outcome: none when
model.generate_content raised (network, auth, quota - the generic except of
line 77 turns it into a None return), some raw for a reply text.  parse
models the library call chain json.loads(payload) followed by
.get("quiz", []): none when json.loads raises JSONDecodeError or the loaded
value is not a dict (both caught, lines 74-79, returning None), some none
when the document lacks a "quiz" field (the .get default [] applies), and
some (some qs) when it carries one.  The two emptiness guards are
lines 64-70 (if not json_string / if not json_string.strip()). -/
def generate_quiz (parse : List Char → Option (Option (List Question)))
    (response : Option (List Char)) : Option (List Question) :=
  match response with
  | none => none
  | some raw =>
    let json_string := extractJson raw
    if json_string.isEmpty then none
    else if (stripWS json_string).isEmpty then none
    else
      match parse json_string with
      | none => none
      | some quizField => some (quizField.getD [])

/-- The four st.session_state fields the script uses.  quiz = none models
'quiz' not being a key of st.session_state (before the first generation and
after Start New Quiz deletes the keys).  current_question_index is a Python
int, hence Int. -/
structure SessionState where
  quiz : Option (List Question)
  current_question_index : Int
  score : Nat
  user_answers : List (Int × String)
deriving DecidableEq

/-- Session state before any generation: no quiz key in st.session_state. -/
def initState : SessionState := ⟨none, 0, 0, []⟩

/-- Python truthiness of user_answers.get(i): None and the empty string are
falsy (if user_ans:, line 157; if selected_key, line 121). -/
def truthyStr : Option String → Bool
  | none => false
  | some s => !s.isEmpty

/-- Python truthiness of the quiz value: None and the empty list are falsy
(if quiz:, line 93; the display guard of line 104). -/
def truthyQuiz : Option (List Question) → Bool
  | none => false
  | some q => !q.isEmpty

/-- Python list indexing quiz[i]: non-negative indices from the front,
negative indices from the back, none on IndexError. -/
def pyGet {α : Type} (l : List α) (i : Int) : Option α :=
  let j := if i < 0 then (l.length : Int) + i else i
  if 0 ≤ j then l.get? j.toNat else none

/-- Effect of the Generate Quiz button handler (Quiz.py lines 88-99) given
generate_quiz's result: only a truthy quiz (non-None and non-empty, if
quiz:) replaces the session, resetting the index, score and answers;
otherwise every field is left untouched. -/
def genStep (result : Option (List Question)) (s : SessionState) : SessionState :=
  match result with
  | some quiz => if quiz.isEmpty then s else ⟨some quiz, 0, 0, []⟩
  | none => s

/-- Guard of the question display branch (lines 104-109): quiz is a truthy
session key and current_question_index < len(quiz). -/
def inProgress (s : SessionState) : Bool :=
  match s.quiz with
  | some q => !q.isEmpty && decide (s.current_question_index < (q.length : Int))
  | none => false

/-- Guard of the Quiz Completed branch (lines 104 and 143): quiz truthy and
current_question_index ≥ len(quiz). -/
def completedView (s : SessionState) : Bool :=
  match s.quiz with
  | some q => !q.isEmpty && decide ((q.length : Int) ≤ s.current_question_index)
  | none => false

/-- The question the display branch reads (quiz[current_q_index],
line 110), with Python indexing. -/
def currentQuestion (s : SessionState) : Option Question :=
  match s.quiz with
  | some q => pyGet q s.current_question_index
  | none => none

/-- list(question_data["options"].keys()) (lines 118 and 121), in insertion
order. -/
def optionKeys (q : Question) : List String := q.options.map Prod.fst

/-- The index= argument of st.radio (line 121):
list(keys).index(selected_key) if selected_key else 0, with Python
truthiness on selected_key. -/
def radioIndex (keys : List String) (selected_key : Option String) : Nat :=
  if truthyStr selected_key then keys.indexOf (selected_key.getD "") else 0

/-- The selection the radio shows when the widget holds no retained state:
the option key at the index= argument. -/
def radioDefaultSelection (q : Question) (prior : Option String) : Option String :=
  (optionKeys q).get? (radioIndex (optionKeys q) prior)

/-- Unconditional answer recording on every render of a question
(line 124): st.session_state.user_answers[current_q_index] =
selected_option, where sel is the radio's current selection.  Outside the
display branch the line does not run. -/
def recordAnswer (sel : String) (s : SessionState) : SessionState :=
  if inProgress s then
    { s with user_answers := alistSet s.user_answers s.current_question_index sel }
  else s

/-- Effect of a click on Previous Question (lines 129-131): the button is
rendered only in the display branch and disabled at index 0; a click
decrements the index. -/
def prevClick (s : SessionState) : SessionState :=
  if inProgress s ∧ s.current_question_index ≠ 0 then
    { s with current_question_index := s.current_question_index - 1 }
  else s

/-- Effect of a click on Next Question / Complete Quiz (lines 136-142):
rendered only in the display branch, always enabled, and both branches
increment the index by one. -/
def nextClick (s : SessionState) : SessionState :=
  if inProgress s then
    { s with current_question_index := s.current_question_index + 1 }
  else s

/-- A script run ending in a Previous click: the radio recording of
line 124 executes before the button handlers. -/
def runPrev (sel : String) (s : SessionState) : SessionState :=
  prevClick (recordAnswer sel s)

/-- A script run ending in a Next / Complete click: recording first, then
the increment. -/
def runNext (sel : String) (s : SessionState) : SessionState :=
  nextClick (recordAnswer sel s)

/-- Per-question body of the results loop (lines 151-170): user_ans =
user_answers.get(i); a truthy answer is compared with q_data["answer"] and
scores on exact equality; a falsy one clears all_answered.  The accumulator
is (score, all_answered). -/
def questionStep (answers : List (Int × String)) (i : Int) (q : Question)
    (acc : Nat × Bool) : Nat × Bool :=
  let ua := alistGet answers i
  if truthyStr ua then
    (if ua = some q.answer then acc.1 + 1 else acc.1, acc.2)
  else
    (acc.1, false)

/-- The results loop for i, q_data in enumerate(quiz) (lines 150-170),
threading (score, all_answered) from question index i on. -/
def resultsLoop (answers : List (Int × String)) : Int → Nat × Bool → List Question → Nat × Bool
  | _, acc, [] => acc
  | i, acc, q :: rest => resultsLoop answers (i + 1) (questionStep answers i q acc) rest

/-- The whole results computation of the Completed branch (lines 146-176):
score from 0, all_answered from True, over the quiz in order.  The first
component is the final score, the second the final all_answered; the "not
all answered" notice (line 175) shows exactly when the second is false. -/
def computeResults (quiz : List Question) (answers : List (Int × String)) : Nat × Bool :=
  resultsLoop answers 0 (0, true) quiz

/-- Effect of one render of the Completed branch on the session state
(lines 146-172): st.session_state.score is set to 0 and then to the
recomputed score within the same run; no other field is written. -/
def completedRun (s : SessionState) : SessionState :=
  if completedView s then
    { s with score := (computeResults (s.quiz.getD []) s.user_answers).1 }
  else s

/-- Effect of a click on Start New Quiz (lines 178-181): rendered only in
the Completed branch; deletes the four session keys, i.e. returns to the
initial state. -/
def restartClick (s : SessionState) : SessionState :=
  if completedView s then initState else s

/-- L consecutive Next clicks, each a full script run with the radio
selection taken from the given list. -/
def iterateNext (sels : List String) (s : SessionState) : SessionState :=
  sels.foldl (fun t sel => runNext sel t) s

/-- First part of the spec sentence behind claim C2, followed for
comparison with extractJson.  Modelled from the spec: "the first fenced
code block tagged as JSON" whose "exact JSON content inside the fence is
used for parsing" - the text after the first ```json marker up to the next
``` marker, with surrounding whitespace stripped. -/
def afterFirst (pat : List Char) : List Char → Option (List Char)
  | [] => none
  | c :: t =>
    if startsWith pat (c :: t) then some (List.drop pat.length (c :: t))
    else afterFirst pat t

/-- Companion of afterFirst: the text strictly before the first occurrence
of pat, none when pat does not occur. -/
def beforeFirst (pat : List Char) : List Char → Option (List Char)
  | [] => none
  | c :: t =>
    if startsWith pat (c :: t) then some []
    else (beforeFirst pat t).map (fun r => c :: r)

/-- Modelled from the spec: the content of the first fenced block tagged as
JSON, as the spec sentence of claim C2 describes the extraction. -/
def specFirstFencedJson (raw : List Char) : Option (List Char) :=
  (afterFirst fenceJson raw).bind fun rest =>
    (beforeFirst fence rest).map stripWS

/-- Sample question used by concrete witnesses. -/
def qA : Question :=
  ⟨"What is 2 + 2?", [("A", "4"), ("B", "5"), ("C", "6"), ("D", "7")], "A", "arithmetic"⟩

/-- Second sample question used by concrete witnesses. -/
def qB : Question :=
  ⟨"Capital of France?", [("A", "Rome"), ("B", "Paris"), ("C", "Oslo"), ("D", "Bern")], "B", "geography"⟩

/-- A model reply holding two fenced JSON blocks with prose between them. -/
def cexReply : List Char :=
  ("\x60\x60\x60json\n\x7b\"a\": 1\x7d\n\x60\x60\x60\nSome prose.\n\x60\x60\x60json\n\x7b\"b\": 2\x7d\n\x60\x60\x60").toList

/-- States the Streamlit script can reach: the initial state, closed under
one script run per user interaction.  The radio constraint on render, next
and prev steps reflects that st.radio only ever returns one of the option
keys it was given for the displayed question. -/
inductive Reach : SessionState → Prop where
  | init : Reach initState
  | generate (r : Option (List Question)) {s : SessionState} :
      Reach s → Reach (genStep r s)
  | render (sel : String) {s : SessionState} :
      Reach s → (∀ q, currentQuestion s = some q → sel ∈ optionKeys q) →
      Reach (recordAnswer sel s)
  | next (sel : String) {s : SessionState} :
      Reach s → (∀ q, currentQuestion s = some q → sel ∈ optionKeys q) →
      Reach (runNext sel s)
  | prev (sel : String) {s : SessionState} :
      Reach s → (∀ q, currentQuestion s = some q → sel ∈ optionKeys q) →
      Reach (runPrev sel s)
  | completedRender {s : SessionState} : Reach s → Reach (completedRun s)
  | restart {s : SessionState} : Reach s → Reach (restartClick s)

/-! Helper lemmas about the association-list model of Python dicts. -/

theorem alistGet_alistSet_self {α β : Type} [DecidableEq α]
    (d : List (α × β)) (k : α) (v : β) : alistGet (alistSet d k v) k = some v := by
  induction d with
  | nil => simp [alistSet, alistGet]
  | cons p t ih =>
    obtain ⟨k', v'⟩ := p
    by_cases h : k' = k
    · simp [alistSet, h, alistGet]
    · simp [alistSet, h, alistGet, ih]

theorem alistGet_alistSet_ne {α β : Type} [DecidableEq α]
    (d : List (α × β)) (k : α) (v : β) (i : α) (h : i ≠ k) :
    alistGet (alistSet d k v) i = alistGet d i := by
  have hki : ¬ (k = i) := fun hh => h hh.symm
  induction d with
  | nil => simp [alistSet, alistGet, hki]
  | cons p t ih =>
    obtain ⟨k', v'⟩ := p
    by_cases hk : k' = k
    · subst hk
      simp [alistSet, alistGet, hki]
    · simp only [alistSet, if_neg hk, alistGet]
      by_cases hi : k' = i
      · simp [hi]
      · simp [hi, ih]

theorem alistGet_isSome_of_mem_keys {α β : Type} [DecidableEq α]
    {l : List (α × β)} {a : α} (h : a ∈ l.map Prod.fst) :
    (alistGet l a).isSome = true := by
  induction l with
  | nil => simp at h
  | cons p t ih =>
    obtain ⟨k, v⟩ := p
    by_cases hk : k = a
    · simp [alistGet, hk]
    · simp only [List.map_cons, List.mem_cons] at h
      rcases h with h | h

      · exact absurd h.symm hk
      · simp [alistGet, hk, ih h]

/-! Helper lemmas: each handler writes only the fields it owns. -/

theorem recordAnswer_quiz (sel : String) (s : SessionState) :
    (recordAnswer sel s).quiz = s.quiz := by
  unfold recordAnswer; split <;> rfl

theorem recordAnswer_index (sel : String) (s : SessionState) :
    (recordAnswer sel s).current_question_index = s.current_question_index := by
  unfold recordAnswer; split <;> rfl

theorem inProgress_recordAnswer (sel : String) (s : SessionState) :
    inProgress (recordAnswer sel s) = inProgress s := by
  unfold recordAnswer; split <;> rfl

theorem recordAnswer_of_inProgress {s : SessionState} (h : inProgress s = true) (sel : String) :
    (recordAnswer sel s).user_answers = alistSet s.user_answers s.current_question_index sel := by
  unfold recordAnswer
  rw [if_pos h]

theorem nextClick_quiz (s : SessionState) : (nextClick s).quiz = s.quiz := by
  unfold nextClick; split <;> rfl

theorem nextClick_answers (s : SessionState) :
    (nextClick s).user_answers = s.user_answers := by
  unfold nextClick; split <;> rfl

theorem prevClick_quiz (s : SessionState) : (prevClick s).quiz = s.quiz := by
  unfold prevClick; split <;> rfl

theorem prevClick_answers (s : SessionState) :
    (prevClick s).user_answers = s.user_answers := by
  unfold prevClick; split <;> rfl

theorem completedView_score (s : SessionState) (v : Nat) :
    completedView { s with score := v } = completedView s := rfl

/-- Truthiness of a list value, unpacked. -/
theorem isEmpty_false_iff {α : Type} (l : List α) : l.isEmpty = false ↔ l ≠ [] := by
  cases l <;> simp

/-- The display-branch guard, unpacked. -/
theorem inProgress_iff (s : SessionState) :
    inProgress s = true ↔
      ∃ q, s.quiz = some q ∧ q ≠ [] ∧ s.current_question_index < (q.length : Int) := by
  unfold inProgress
  cases hq : s.quiz with
  | none => simp
  | some q =>
    simp only [Bool.and_eq_true, decide_eq_true_eq, Bool.not_eq_true', isEmpty_false_iff]
    constructor
    · rintro ⟨h1, h2⟩
      exact ⟨q, rfl, h1, h2⟩
    · rintro ⟨q', hq', h1, h2⟩
      cases hq'
      exact ⟨h1, h2⟩

/-- Python indexing at a non-negative index is plain list indexing. -/
theorem pyGet_nonneg {α : Type} (l : List α) (i : Int) (h : 0 ≤ i) :
    pyGet l i = l.get? i.toNat := by
  unfold pyGet
  simp only [if_neg (not_lt.mpr h), if_pos h]

/-- The question pointer of a reachable state is never negative: it starts
at 0, regeneration resets it to 0, Next adds one, and Previous is guarded
by its disabled= condition. -/
theorem index_nonneg_of_reach {s : SessionState} (h : Reach s) :
    0 ≤ s.current_question_index := by
  induction h with
  | init => exact le_refl 0
  | generate r hs ih =>
    cases r with
    | none => exact ih
    | some q =>
      by_cases hq : q.isEmpty
      · simpa [genStep, hq] using ih
      · simp [genStep, hq]
  | render sel hs hsel ih => simpa [recordAnswer_index] using ih
  | next sel hs hsel ih =>
    unfold runNext nextClick
    split
    · simp only [recordAnswer_index]
      omega
    · simpa [recordAnswer_index] using ih
  | prev sel hs hsel ih =>
    unfold runPrev prevClick
    split
    · rename_i hcond
      simp only [recordAnswer_index] at hcond ⊢
      omega
    · simpa [recordAnswer_index] using ih
  | completedRender hs ih =>
    unfold completedRun
    split
    · exact ih
    · exact ih
  | restart hs ih =>
    unfold restartClick
    split
    · exact le_refl 0
    · exact ih

/-- Well-formedness of the answers dict: every recorded label is one of the
option keys of the question it was recorded for, in the current quiz. -/
def answersWF (s : SessionState) : Prop :=
  ∀ (i : Int) (lab : String), alistGet s.user_answers i = some lab →
    ∃ q, s.quiz = some q ∧ ∃ qq, pyGet q i = some qq ∧ lab ∈ optionKeys qq

/-- A step that touches neither quiz nor answers preserves answersWF. -/
theorem answersWF_congr {s s' : SessionState} (hq : s'.quiz = s.quiz)
    (ha : s'.user_answers = s.user_answers) (h : answersWF s) : answersWF s' := by
  intro i lab hget
  rw [ha] at hget
  obtain ⟨q, hqz, qq, hqq, hmem⟩ := h i lab hget
  exact ⟨q, hq.trans hqz, qq, hqq, hmem⟩

/-- The radio recording preserves answersWF: the radio only offers the
current question's option keys, and it writes at the current index. -/
theorem answersWF_recordAnswer {s : SessionState} (sel : String)
    (h0 : 0 ≤ s.current_question_index)
    (hsel : ∀ q, currentQuestion s = some q → sel ∈ optionKeys q)
    (h : answersWF s) : answersWF (recordAnswer sel s) := by
  by_cases hp : inProgress s = true
  · intro i lab hget
    rw [recordAnswer_of_inProgress hp] at hget
    rw [recordAnswer_quiz]
    obtain ⟨q, hqz, hne, hlt⟩ := (inProgress_iff s).mp hp
    by_cases hi : i = s.current_question_index
    · rw [hi] at hget ⊢
      rw [alistGet_alistSet_self] at hget
      have hlab : lab = sel := (Option.some.inj hget).symm
      subst hlab
      have htn : s.current_question_index.toNat < q.length := by omega
      have hcur : currentQuestion s = some (q.get ⟨s.current_question_index.toNat, htn⟩) := by
        simp only [currentQuestion, hqz]
        rw [pyGet_nonneg _ _ h0, List.get?_eq_get htn]
      refine ⟨q, hqz, q.get ⟨s.current_question_index.toNat, htn⟩, ?_, hsel _ hcur⟩
      rw [pyGet_nonneg _ _ h0, List.get?_eq_get htn]
    · rw [alistGet_alistSet_ne _ _ _ _ hi] at hget
      exact h i lab hget
  · have : recordAnswer sel s = s := by unfold recordAnswer; rw [if_neg hp]
    rw [this]
    exact h

/-- Every reachable state has a well-formed answers dict. -/
theorem answersWF_of_reach {s : SessionState} (h : Reach s) : answersWF s := by
  induction h with
  | init => intro i lab hget; simp [initState, alistGet] at hget
  | generate r hs ih =>
    cases r with
    | none => exact ih
    | some q =>
      by_cases hq : q.isEmpty
      · simpa [genStep, hq] using ih
      · intro i lab hget
        simp [genStep, hq, alistGet] at hget
  | render sel hs hsel ih =>
    exact answersWF_recordAnswer sel (index_nonneg_of_reach hs) hsel ih
  | next sel hs hsel ih =>
    exact answersWF_congr (nextClick_quiz _) (nextClick_answers _)
      (answersWF_recordAnswer sel (index_nonneg_of_reach hs) hsel ih)
  | prev sel hs hsel ih =>
    exact answersWF_congr (prevClick_quiz _) (prevClick_answers _)
      (answersWF_recordAnswer sel (index_nonneg_of_reach hs) hsel ih)
  | completedRender hs ih =>
    unfold completedRun
    split
    · exact answersWF_congr rfl rfl ih
    · exact ih
  | restart hs ih =>
    unfold restartClick
    split
    · intro i lab hget; simp [initState, alistGet] at hget
    · exact ih

/-! Helper lemmas about the results loop. -/

theorem resultsLoop_all_correct (answers : List (Int × String)) :
    ∀ (l : List Question) (i : Int) (acc : Nat × Bool),
      (∀ (k : Nat) (hk : k < l.length),
          alistGet answers (i + (k : Int)) = some ((l.get ⟨k, hk⟩).answer) ∧
          ((l.get ⟨k, hk⟩).answer).isEmpty = false) →
      resultsLoop answers i acc l = (acc.1 + l.length, acc.2) := by
  intro l
  induction l with
  | nil => intro i acc _; simp [resultsLoop]
  | cons q rest ih =>
    intro i acc h
    have h0 := h 0 (by simp)
    have hua : alistGet answers i = some q.answer := by
      have := h0.1
      simpa using this
    have hne : (q.answer).isEmpty = false := by simpa using h0.2
    have hstep : questionStep answers i q acc = (acc.1 + 1, acc.2) := by
      simp [questionStep, hua, truthyStr, hne]
    rw [resultsLoop, hstep]
    have hrest : ∀ (k : Nat) (hk : k < rest.length),
        alistGet answers ((i + 1) + (k : Int)) = some ((rest.get ⟨k, hk⟩).answer) ∧
        ((rest.get ⟨k, hk⟩).answer).isEmpty = false := by
      intro k hk
      have hk1 : k + 1 < (q :: rest).length := by
        simpa using Nat.succ_lt_succ hk
      have hh := h (k + 1) hk1
      have hcast : i + ((k + 1 : Nat) : Int) = (i + 1) + (k : Int) := by push_cast; ring
      rw [hcast] at hh
      simpa using hh
    rw [ih (i + 1) (acc.1 + 1, acc.2) hrest]
    simp only [List.length_cons, Prod.mk.injEq]
    refine ⟨by omega, by simp⟩

theorem resultsLoop_no_answers :
    ∀ (l : List Question) (i : Int) (acc : Nat × Bool),
      resultsLoop [] i acc l = (acc.1, acc.2 && l.isEmpty) := by
  intro l
  induction l with
  | nil => intro i acc; simp [resultsLoop]
  | cons q rest ih =>
    intro i acc
    have hstep : questionStep [] i q acc = (acc.1, false) := by
      simp [questionStep, alistGet, truthyStr]
    rw [resultsLoop, hstep, ih]
    simp

/-! Helper lemmas about iterated Next clicks. -/

theorem runNext_quiz (sel : String) (s : SessionState) :
    (runNext sel s).quiz = s.quiz := by
  unfold runNext
  rw [nextClick_quiz, recordAnswer_quiz]

theorem runNext_index_of_inProgress {s : SessionState} (sel : String)
    (hip : inProgress s = true) :
    (runNext sel s).current_question_index = s.current_question_index + 1 := by
  unfold runNext nextClick
  have hr : inProgress (recordAnswer sel s) = true := by
    rw [inProgress_recordAnswer]; exact hip
  rw [if_pos hr]
  simp [recordAnswer_index]

theorem iterateNext_spec :
    ∀ (sels : List String) (s : SessionState) (q : List Question),
      s.quiz = some q → q ≠ [] → 0 ≤ s.current_question_index →
      s.current_question_index + sels.length ≤ (q.length : Int) →
      (iterateNext sels s).quiz = some q ∧
      (iterateNext sels s).current_question_index =
        s.current_question_index + sels.length := by
  intro sels
  induction sels with
  | nil => intro s q hq _ _ _; simpa [iterateNext] using hq
  | cons sel rest ih =>
    intro s q hq hne h0 hle
    have hlen : s.current_question_index + (1 + rest.length) ≤ (q.length : Int) := by
      have : ((sel :: rest).length : Int) = 1 + rest.length := by
        simp [List.length_cons]; ring
      rw [this] at hle
      exact hle
    have hip : inProgress s = true := by
      rw [inProgress_iff]
      refine ⟨q, hq, hne, ?_⟩
      have hr0 : (0 : Int) ≤ (rest.length : Int) := Int.natCast_nonneg _
      omega
    have hstep : iterateNext (sel :: rest) s = iterateNext rest (runNext sel s) := rfl
    have hqz : (runNext sel s).quiz = some q := by rw [runNext_quiz]; exact hq
    have hidx := runNext_index_of_inProgress sel hip
    have hrec := ih (runNext sel s) q hqz hne (by omega)
      (by rw [hidx]; omega)
    rw [hstep]
    refine ⟨hrec.1, ?_⟩
    rw [hrec.2, hidx]
    simp only [List.length_cons]
    push_cast
    ring

/-! Helper lemmas about the regex model. -/

theorem startsWith_self_append (p r : List Char) : startsWith p (p ++ r) = true := by
  induction p with
  | nil => rfl
  | cons c t ih => simp [startsWith, ih]

theorem matchAt_not_bt {c : Char} (hc : c ≠ btChar) (t : List Char) :
    matchAt (c :: t) = none := by
  have hsw : startsWith fenceJson (c :: t) = false := by
    simp only [fenceJson, startsWith, Bool.and_eq_false_iff]
    left
    simpa [eq_comm] using hc
  unfold matchAt
  rw [hsw]
  simp

theorem searchFence_cons (c : Char) (t : List Char) :
    searchFence (c :: t) =
      match matchAt (c :: t) with
      | some g => some g
      | none => searchFence t := rfl

theorem searchFence_append {pre : List Char} (l : List Char) (hpre : btChar ∉ pre) :
    searchFence (pre ++ l) = searchFence l := by
  induction pre with
  | nil => rfl
  | cons c t ih =>
    have hc : c ≠ btChar := fun h => hpre (h ▸ List.mem_cons_self c t)
    have ht : btChar ∉ t := fun h => hpre (List.mem_cons_of_mem c h)
    rw [List.cons_append, searchFence_cons, matchAt_not_bt hc]
    exact ih ht

theorem lastClose_of_not_mem {l : List Char} (h : cbr ∉ l) : lastClose l = none := by
  induction l with
  | nil => rfl
  | cons c t ih =>
    have hc : c ≠ cbr := fun hcc => h (hcc ▸ List.mem_cons_self c t)
    have ht : cbr ∉ t := fun hm => h (List.mem_cons_of_mem c hm)
    simp [lastClose, ih ht, hc]

theorem closeOK_fence_append (post : List Char) : closeOK (fence ++ post) = true := by
  unfold closeOK
  have hws : isWS btChar = false := by decide
  have : (fence ++ post).dropWhile isWS = fence ++ post := by
    simp [fence, List.dropWhile_cons, hws]
  rw [this]
  exact startsWith_self_append _ _

theorem lastClose_cons (c : Char) (t : List Char) :
    lastClose (c :: t) =
      match lastClose t with
      | some q => some (q + 1)
      | none => if c = cbr && closeOK t then some 0 else none := rfl

theorem lastClose_fence_end (mid post : List Char) (hpost : cbr ∉ post) :
    lastClose (mid ++ cbr :: (fence ++ post)) = some mid.length := by
  induction mid with
  | nil =>
    have hfp : cbr ∉ fence ++ post := by
      intro hmem
      rcases List.mem_append.mp hmem with hmem | hmem
      · simp [fence, btChar, cbr] at hmem
      · exact hpost hmem
    show lastClose (cbr :: (fence ++ post)) = some 0
    rw [lastClose_cons, lastClose_of_not_mem hfp]
    simp [closeOK_fence_append]
  | cons c t ih =>
    show lastClose (c :: (t ++ cbr :: (fence ++ post))) = some (t.length + 1)
    rw [lastClose_cons, ih]

theorem take_append_cons {α : Type} (l : List α) (c : α) (r : List α) :
    (l ++ c :: r).take (l.length + 1) = l ++ [c] := by
  induction l with
  | nil => simp
  | cons a t ih => simp [List.take_succ_cons, ih]

theorem matchAt_fence (mid post : List Char) (hpost : cbr ∉ post) :
    matchAt (fenceJson ++ obr :: (mid ++ cbr :: (fence ++ post))) =
      some (obr :: (mid ++ [cbr])) := by
  unfold matchAt
  rw [startsWith_self_append, if_pos rfl, List.drop_left]
  have hws : isWS obr = false := by decide
  rw [List.dropWhile_cons, hws]
  simp only [Bool.false_eq_true, if_false]
  rw [lastClose_fence_end mid post hpost]
  simp [take_append_cons]

/-! Claim theorems. -/

/-- C1, counterexample to the claim as stated.  The claim quantifies over
every quiz and every answers map.  First input: a one-question quiz whose
correct label is the empty string and an answers map agreeing with it
everywhere; the claim demands score == L == 1, but the truthiness test
if user_ans: of line 157 treats the matching empty-string answer as
unanswered and the code scores 0.  Second input: the empty quiz with the
empty answers map; the claim demands the "not all answered" flag set
(all_answered == False), but the loop body never runs and the flag stays
unset (True). -/
theorem C1_results_counterexample :
    (computeResults [⟨"q", [("A", "x")], "", "e"⟩] [((0 : Int), "")]).1 = 0 ∧
    ¬ ((computeResults ([] : List Question) []).2 = false) := by
  constructor
  · rfl
  · decide

/-- C1 (amended): the results computation of the Completed branch
(Quiz.py lines 146-176) yields score == L when answers[i] == quiz[i].answer
for every i in [0, L) and every such label is non-empty; it yields
score == 0 with the "not all answered" flag set (all_answered == False)
when the answers map is empty and the quiz is non-empty; on an empty quiz
with empty answers it yields score == 0 with the flag unset. -/
theorem C1_results_scoring (quiz : List Question) (answers : List (Int × String)) :
    ((∀ (k : Nat) (hk : k < quiz.length),
        alistGet answers (k : Int) = some ((quiz.get ⟨k, hk⟩).answer) ∧
        ((quiz.get ⟨k, hk⟩).answer).isEmpty = false) →
      (computeResults quiz answers).1 = quiz.length) ∧
    (answers = [] → quiz ≠ [] → computeResults quiz answers = (0, false)) ∧
    (answers = [] → quiz = [] → computeResults quiz answers = (0, true)) := by
  refine ⟨?_, ?_, ?_⟩
  · intro h
    unfold computeResults
    have hh : ∀ (k : Nat) (hk : k < quiz.length),
        alistGet answers ((0 : Int) + (k : Int)) = some ((quiz.get ⟨k, hk⟩).answer) ∧
        ((quiz.get ⟨k, hk⟩).answer).isEmpty = false := by
      intro k hk
      rw [zero_add]
      exact h k hk
    rw [resultsLoop_all_correct answers quiz 0 (0, true) hh]
    simp
  · intro ha hne
    subst ha
    unfold computeResults
    rw [resultsLoop_no_answers]
    rw [(isEmpty_false_iff quiz).mpr hne]
    rfl
  · intro ha hq
    subst ha
    subst hq
    rfl

/-- C1 witness: the amended theorem applied to a concrete one-question quiz
answered correctly with label "A": the score equals the length 1. -/
theorem C1_results_witness :
    (computeResults [qA] [((0 : Int), "A")]).1 = 1 :=
  (C1_results_scoring [qA] [((0 : Int), "A")]).1 (by decide)

/-- C2, counterexample to the claim as stated.  On a reply holding two
fenced JSON blocks with prose between them, the first fenced block's exact
content is the seven-character object of key "a", but the greedy regex of
line 55 captures from the first opening brace to the last closing brace
that precedes a closing fence, spanning the first block's closing fence,
the prose and the second block. -/
theorem C2_extraction_counterexample :
    specFirstFencedJson cexReply = some (("\x7b\"a\": 1\x7d").toList) ∧
    extractJson cexReply ≠ ("\x7b\"a\": 1\x7d").toList := by
  constructor
  · decide
  · decide

/-- C2 (amended): for a reply of the shape
prose + the fence marker tagged json + a brace-delimited body + a closing
fence + trailing text, where the leading prose holds no backtick and the
trailing text holds no closing brace, the extraction passes exactly the
brace-delimited content inside the fence to the parser, ignoring the
surrounding prose.  (With several fenced blocks, or a closing brace
followed by a fence later in the reply, the greedy capture extends to the
last such brace instead of the first block's end - see the
counterexample.) -/
theorem C2_extraction_single_fence (pre mid post : List Char)
    (hpre : btChar ∉ pre) (hpost : cbr ∉ post) :
    extractJson (pre ++ (fenceJson ++ obr :: (mid ++ cbr :: (fence ++ post)))) =
      obr :: (mid ++ [cbr]) := by
  unfold extractJson
  rw [searchFence_append _ hpre]
  have h := matchAt_fence mid post hpost
  have e : fenceJson ++ obr :: (mid ++ cbr :: (fence ++ post)) =
      btChar :: ([btChar, btChar, 'j', 's', 'o', 'n'] ++
        obr :: (mid ++ cbr :: (fence ++ post))) := rfl
  rw [e, searchFence_cons, ← e, h]

/-- C2 witness: the amended theorem applied to a concrete reply with prose
on both sides of a single fenced JSON object. -/
theorem C2_extraction_witness :
    extractJson (("Here you go: ").toList ++
        (fenceJson ++ obr :: (("\"quiz\": []").toList ++ cbr :: (fence ++ (" enjoy!").toList)))) =
      obr :: (("\"quiz\": []").toList ++ [cbr]) :=
  C2_extraction_single_fence (("Here you go: ").toList) (("\"quiz\": []").toList)
    ((" enjoy!").toList) (by decide) (by decide)

/-- C3, counterexample to the claim as stated.  A generation can succeed
with an empty quiz (generate_quiz returns [] when the parsed document's
quiz field is empty), i.e. L == 0; the claim then demands that startQuiz
set currentIndex to 0, but the if quiz: truthiness test of line 93 skips
the whole assignment block, leaving a prior session's index at 1. -/
theorem C3_empty_generation_counterexample :
    genStep (some ([] : List Question)) ⟨some [qA], 1, 0, []⟩ = ⟨some [qA], 1, 0, []⟩ ∧
    (genStep (some ([] : List Question)) ⟨some [qA], 1, 0, []⟩).current_question_index ≠ 0 := by
  constructor
  · rfl
  · decide

/-- C3 (amended): for every successful generation yielding a non-empty
quiz of length L, the Generate handler sets currentIndex to 0, answers to
the empty map and score to 0; every Next click in the display branch
increments currentIndex by exactly 1 whether or not the current question
was answered; exactly L Next-click runs from that state bring the session
to the Completed view (currentIndex == L), and fewer than L leave it in
progress. -/
theorem C3_start_and_complete (q : List Question) (s : SessionState) (sels : List String)
    (hq : q ≠ []) (hlen : sels.length = q.length) :
    (genStep (some q) s).quiz = some q ∧
    (genStep (some q) s).current_question_index = 0 ∧
    (genStep (some q) s).user_answers = [] ∧
    (genStep (some q) s).score = 0 ∧
    (∀ (t : SessionState) (sel : String), inProgress t = true →
      (runNext sel t).current_question_index = t.current_question_index + 1) ∧
    (iterateNext sels (genStep (some q) s)).current_question_index = (q.length : Int) ∧
    completedView (iterateNext sels (genStep (some q) s)) = true ∧
    (∀ sels2 : List String, sels2.length < q.length →
      inProgress (iterateNext sels2 (genStep (some q) s)) = true) := by
  have hqe : q.isEmpty = false := (isEmpty_false_iff q).mpr hq
  have hgen : genStep (some q) s = ⟨some q, 0, 0, []⟩ := by
    simp [genStep, hqe]
  rw [hgen]
  have hfull := iterateNext_spec sels ⟨some q, 0, 0, []⟩ q rfl hq (le_refl 0)
    (by rw [hlen]; simp)
  refine ⟨rfl, rfl, rfl, rfl, ?_, ?_, ?_, ?_⟩
  · intro t sel hip
    exact runNext_index_of_inProgress sel hip
  · rw [hfull.2, hlen]
    simp
  · simp only [completedView, hfull.1]
    rw [hfull.2, hlen]
    simp [hqe]
  · intro sels2 h2
    have hspec := iterateNext_spec sels2 ⟨some q, 0, 0, []⟩ q rfl hq (le_refl 0)
      (by push_cast; omega)
    rw [inProgress_iff]
    refine ⟨q, hspec.1, hq, ?_⟩
    rw [hspec.2]
    push_cast
    omega

/-- C3 witness: a concrete one-question quiz; after generation the index is
0 and one Next run completes the quiz. -/
theorem C3_start_and_complete_witness :
    (genStep (some [qA]) initState).current_question_index = 0 ∧
    completedView (iterateNext ["B"] (genStep (some [qA]) initState)) = true :=
  ⟨(C3_start_and_complete [qA] initState ["B"] (by decide) rfl).2.1,
   (C3_start_and_complete [qA] initState ["B"] (by decide) rfl).2.2.2.2.2.2.1⟩

/-- C4, counterexample to the claim as stated.  startQuiz with an empty
quiz does not succeed: the if quiz: test of line 93 treats the empty list
as falsy, so from a fresh session the Generate handler leaves the state
unchanged, no quiz is stored, and the session is not in the Completed
view - there is no "0 out of 0" line, contrary to the claimed immediate
Completed state. -/
theorem C4_empty_quiz_counterexample :
    genStep (some ([] : List Question)) initState = initState ∧
    completedView (genStep (some ([] : List Question)) initState) = false ∧
    (genStep (some ([] : List Question)) initState).quiz = none := by
  refine ⟨rfl, ?_, rfl⟩
  decide

/-- C4 (amended): a generation yielding an empty quiz never starts a
session: the handler treats the empty list as falsy and leaves every
session field unchanged; and even for a state holding an empty quiz, the
display guard of line 104 treats it as absent, so neither the question
branch nor the Completed branch renders - nothing is shown and nothing
can crash. -/
theorem C4_empty_quiz (s : SessionState) :
    genStep (some ([] : List Question)) s = s ∧
    (s.quiz = some [] → inProgress s = false ∧ completedView s = false) := by
  constructor
  · rfl
  · intro h
    constructor
    · simp [inProgress, h]
    · simp [completedView, h]

/-- C4 witness: the amended theorem at a state holding an empty quiz. -/
theorem C4_empty_quiz_witness :
    inProgress ⟨some [], 5, 0, []⟩ = false ∧ completedView ⟨some [], 5, 0, []⟩ = false :=
  (C4_empty_quiz ⟨some [], 5, 0, []⟩).2 rfl

/-- C5: whenever generate_quiz returns no quiz (None), the Generate
handler leaves every session field exactly as it was; an invocation
failure returns None, and so does a parse failure on the extracted
payload. -/
theorem C5_failure_preserves_session (parse : List Char → Option (Option (List Question)))
    (response : Option (List Char)) (s : SessionState) :
    (generate_quiz parse response = none → genStep (generate_quiz parse response) s = s) ∧
    (response = none → generate_quiz parse response = none) ∧
    (∀ raw, response = some raw → parse (extractJson raw) = none →
      generate_quiz parse response = none) := by
  refine ⟨?_, ?_, ?_⟩
  · intro h
    rw [h]
    rfl
  · intro h
    rw [h]
    rfl
  · intro raw hr hp
    subst hr
    show (if (extractJson raw).isEmpty then none
      else if (stripWS (extractJson raw)).isEmpty then none
      else match parse (extractJson raw) with
        | none => none
        | some quizField => some (quizField.getD [])) = none
    rw [hp]
    split_ifs <;> rfl

/-- C5 witness: a failing invocation at a concrete state: the result is
None and the session is untouched. -/
theorem C5_failure_preserves_session_witness :
    generate_quiz (fun _ => none) none = none ∧
    genStep (generate_quiz (fun _ => none) none) initState = initState :=
  ⟨(C5_failure_preserves_session (fun _ => none) none initState).2.1 rfl,
   (C5_failure_preserves_session (fun _ => none) none initState).1 rfl⟩

/-- C6: recording an answer twice at the same question (two radio writes
at an unchanged current index) leaves the second label in the answers
dict - the last write wins. -/
theorem C6_last_write_wins (s : SessionState) (X Y : String) (h : inProgress s = true) :
    alistGet (recordAnswer Y (recordAnswer X s)).user_answers
      s.current_question_index = some Y := by
  have h2 : inProgress (recordAnswer X s) = true := by
    rw [inProgress_recordAnswer]
    exact h
  rw [recordAnswer_of_inProgress h2, recordAnswer_index, alistGet_alistSet_self]

/-- C6 witness: selecting "A" then "B" on the single question of a fresh
quiz leaves answers[0] == "B". -/
theorem C6_last_write_wins_witness :
    alistGet (recordAnswer "B" (recordAnswer "A" (genStep (some [qA]) initState))).user_answers
      (genStep (some [qA]) initState).current_question_index = some "B" :=
  C6_last_write_wins (genStep (some [qA]) initState) "A" "B" (by decide)

/-- C7: one render of the Completed branch only rewrites the score field
from the unchanged quiz and answers, so running it twice without an
intervening answer change produces the same state and hence the identical
score - the results computation is deterministic and idempotent. -/
theorem C7_results_idempotent (s : SessionState) :
    completedRun (completedRun s) = completedRun s := by
  by_cases h : completedView s = true
  · have h1 : completedRun s =
        { s with score := (computeResults (s.quiz.getD []) s.user_answers).1 } := by
      unfold completedRun
      rw [if_pos h]
    have h2 : completedView
        { s with score := (computeResults (s.quiz.getD []) s.user_answers).1 } = true := by
      rw [completedView_score]
      exact h
    rw [h1]
    unfold completedRun
    rw [if_pos h2]
  · have h1 : completedRun s = s := by
      unfold completedRun
      rw [if_neg h]
    rw [h1, h1]

/-- C8: the Previous handler is a no-op at index 0 (its disabled= guard
rejects the click), decrements the index by exactly 1 when the guard
passes, and consequently the index of every reachable session state is
never negative. -/
theorem C8_previous_guarded :
    (∀ s : SessionState, s.current_question_index = 0 → prevClick s = s) ∧
    (∀ s : SessionState, inProgress s = true → s.current_question_index ≠ 0 →
      (prevClick s).current_question_index = s.current_question_index - 1) ∧
    (∀ s : SessionState, Reach s → 0 ≤ s.current_question_index) := by
  refine ⟨?_, ?_, ?_⟩
  · intro s h
    unfold prevClick
    rw [if_neg (fun hc => hc.2 h)]
  · intro s hip hne
    unfold prevClick
    rw [if_pos ⟨hip, hne⟩]
  · intro s hr
    exact index_nonneg_of_reach hr

/-- C8 witness: Previous at index 0 leaves the initial state unchanged; at
index 1 of a two-question quiz it moves to index 0; the initial state is
reachable with a non-negative index. -/
theorem C8_previous_guarded_witness :
    prevClick initState = initState ∧
    (prevClick ⟨some [qA, qB], 1, 0, []⟩).current_question_index = 1 - 1 ∧
    0 ≤ initState.current_question_index :=
  ⟨C8_previous_guarded.1 initState rfl,
   C8_previous_guarded.2.1 ⟨some [qA, qB], 1, 0, []⟩ (by decide) (by decide),
   C8_previous_guarded.2.2 initState Reach.init⟩

/-- C9: on every render of a question in the display branch the answer for
the current index is recorded unconditionally (so a visited question is
answered from then on - no recorded entry is ever lost to a later
recording), and when no prior truthy answer exists the radio's initial
selection is the question's first option key. -/
theorem C9_record_on_render (s : SessionState) (sel : String) (h : inProgress s = true) :
    alistGet (recordAnswer sel s).user_answers s.current_question_index = some sel ∧
    (∀ (q : Question) (prior : Option String), truthyStr prior = false →
      radioDefaultSelection q prior = (optionKeys q).get? 0) ∧
    (∀ (j : Int) (v : String), alistGet s.user_answers j = some v →
      (alistGet (recordAnswer sel s).user_answers j).isSome = true) := by
  refine ⟨?_, ?_, ?_⟩
  · rw [recordAnswer_of_inProgress h, alistGet_alistSet_self]
  · intro q prior hp
    unfold radioDefaultSelection radioIndex
    rw [hp]
    simp
  · intro j v hv
    rw [recordAnswer_of_inProgress h]
    by_cases hj : j = s.current_question_index
    · rw [hj, alistGet_alistSet_self]
      rfl
    · rw [alistGet_alistSet_ne _ _ _ _ hj, hv]
      rfl

/-- C9 witness: rendering the single question of a fresh quiz with the
radio on "C" records answers[0] == "C". -/
theorem C9_record_on_render_witness :
    alistGet (recordAnswer "C" (genStep (some [qA]) initState)).user_answers
      (genStep (some [qA]) initState).current_question_index = some "C" :=
  (C9_record_on_render (genStep (some [qA]) initState) "C" (by decide)).1

/-- C10: in every reachable state, every label recorded in the answers
dict for a question index is one of that question's option keys, so the
Completed branch's lookup quiz[i].options[answers[i]] for an answered
question always succeeds. -/
theorem C10_answer_lookups_safe {s : SessionState} (hr : Reach s) {q : List Question}
    (hq : s.quiz = some q) (i : Nat) (hi : i < q.length) (lab : String)
    (ha : alistGet s.user_answers (i : Int) = some lab) :
    (alistGet (q.get ⟨i, hi⟩).options lab).isSome = true := by
  obtain ⟨q', hq', qq, hqq, hmem⟩ := answersWF_of_reach hr (i : Int) lab ha
  rw [hq] at hq'
  have hqe : q' = q := (Option.some.inj hq').symm
  rw [hqe] at hqq
  have h0 : (0 : Int) ≤ (i : Int) := Int.natCast_nonneg i
  rw [pyGet_nonneg _ _ h0] at hqq
  simp only [Int.toNat_natCast] at hqq
  rw [List.get?_eq_get hi] at hqq
  have hqq' : qq = q.get ⟨i, hi⟩ := (Option.some.inj hqq).symm
  subst hqq'
  exact alistGet_isSome_of_mem_keys hmem

/-- C10 witness: a reachable two-question session that recorded "A" for
question 0; the options lookup for the recorded label succeeds. -/
theorem C10_answer_lookups_safe_witness :
    (alistGet (([qA, qB].get ⟨0, by decide⟩).options) "A").isSome = true := by
  have h0 : Reach (genStep (some [qA, qB]) initState) :=
    Reach.generate (some [qA, qB]) Reach.init
  have h1 : Reach (recordAnswer "A" (genStep (some [qA, qB]) initState)) := by
    refine Reach.render "A" h0 ?_
    intro q hqc
    have hqa : q = qA := by
      have hcc : currentQuestion (genStep (some [qA, qB]) initState) = some qA := by decide
      rw [hcc] at hqc
      exact (Option.some.inj hqc).symm
    rw [hqa]
    decide
  exact @C10_answer_lookups_safe (recordAnswer "A" (genStep (some [qA, qB]) initState)) h1
    [qA, qB] (by decide) 0 (by decide) "A" (by decide)

end MCQ
